import Mathlib

/-
Verification of the prgi progress-indicator engine (prgi.c / prgi.h).

Shallow embedding conventions:
- C strings are lists of bytes (Nat), without the terminating 0 byte.
- C float / double values are modelled as rationals; a float variable that can
  hold a non-finite value (NaN or infinity) is modelled as an Option rational,
  with none standing for any non-finite value, and divisions whose C result
  would be non-finite (NaN operand or zero divisor) produce none.
- C long int / int values are modelled as integers; float-to-integer
  conversion truncates toward zero, as in C.
- The clock and the terminal are external inputs: functions that read them in
  C (timef, termwidth) become explicit parameters (now, tw).  Terminal writes
  are accumulated in an output trace field of the state.
- The mark re-estimation of prgi_update__ divides by (now - last_time); the C
  behaviour when that interval is exactly zero is a documented open question
  (non-finite intermediate), and the embedding uses the rational convention
  x / 0 = 0 there, i.e. the mark is left unchanged in that degenerate case.
  No theorem below depends on that case.
-/

/-- Truncation of a rational toward zero, as in a C float-to-integer cast. -/
def ratTrunc (q : ℚ) : ℤ := q.num.tdiv (q.den : ℤ)

/-- Division on possibly non-finite float values: any division that would
produce a non-finite C float result (NaN operand or zero divisor) is none. -/
def qdiv (a b : Option ℚ) : Option ℚ :=
  match a, b with
  | some x, some y => if y = 0 then none else some (x / y)
  | _, _ => none

/-- Decimal rendering of a natural number, digit characters as printf. -/
def natStr (n : ℕ) : String := String.mk (Nat.toDigits 10 n)

/-- printf %d rendering of an integer. -/
def intStr (n : ℤ) : String :=
  if n < 0 then "-" ++ natStr n.natAbs else natStr n.toNat

/-- printf %02d rendering of an integer. -/
def pad2 (n : ℤ) : String :=
  if 0 ≤ n ∧ n < 10 then "0" ++ intStr n else intStr n

/-- Zero-pad the decimal rendering of n to at least k digits (used for the
digits after the decimal point of printf %.kf). -/
def padZeros (k : ℕ) (n : ℕ) : String :=
  let s := natStr n
  String.mk (List.replicate (k - s.length) '0') ++ s

/-- Parameter byte of a CSI sequence, range 0x30 to 0x3F (prgi.c line 103). -/
def isParamByte (c : ℕ) : Bool := 0x30 ≤ c && c ≤ 0x3F

/-- Intermediate byte of a CSI sequence, range 0x20 to 0x2F (prgi.c line 104). -/
def isInterByte (c : ℕ) : Bool := 0x20 ≤ c && c ≤ 0x2F

/-- Final byte of a CSI sequence, range 0x40 to 0x7E (prgi.c line 105). -/
def isFinalByte (c : ℕ) : Bool := 0x40 ≤ c && c ≤ 0x7E

/-- One optional final byte at the head of the string: consumed when it is in
the final-byte range (prgi.c line 105). -/
def csiTail (m : List ℕ) : List ℕ :=
  match m with
  | c :: t => if isFinalByte c then t else c :: t
  | [] => []

/-- Rest of the string after the body of a CSI sequence whose ESC [ introducer
has already been consumed: drop parameter bytes, then intermediate bytes, then
one final byte when present (prgi.c lines 103-105). -/
def csiFinish (l : List ℕ) : List ℕ :=
  csiTail ((l.dropWhile isParamByte).dropWhile isInterByte)

/-- esc_skip (prgi.c lines 98-109): the C function advances a pointer past any
recognized escape sequences and returns it; here we return the corresponding
suffix of the byte list.  27 is ESC, 91 is the open-bracket byte. -/
def esc_skip (s : List ℕ) : List ℕ :=
  match s with
  | [] => []
  | c :: rest =>
    if c = 27 then
      match rest with
      | r1 :: r2 => if r1 = 91 then esc_skip (csiFinish r2) else esc_skip (r1 :: r2)
      | [] => []
    else c :: rest
termination_by s.length
decreasing_by
  · have h1 : ∀ m : List ℕ, (csiTail m).length ≤ m.length := by
      intro m; cases m with
      | nil => simp [csiTail]
      | cons c0 t0 => simp only [csiTail]; split <;> simp
    have h2 : (csiFinish t).length ≤ t.length :=
      le_trans (h1 _) (le_trans (List.dropWhile_sublist _).length_le
        (List.dropWhile_sublist _).length_le)
    simp only [List.length_cons]; omega
  · simp only [List.length_cons]; omega

/-- esc_strlen (prgi.c lines 112-120): number of printable characters, i.e.
characters outside recognized escape sequences. -/
def esc_strlen (s : List ℕ) : ℕ :=
  match h : esc_skip s with
  | [] => 0
  | _ :: t => 1 + esc_strlen t
termination_by s.length
decreasing_by
  have key : ∀ u : List ℕ, (esc_skip u).length ≤ u.length := by
    intro u
    induction u using esc_skip.induct with
    | case1 => simp [esc_skip]
    | case2 t2 ih =>
      have h1 : ∀ m : List ℕ, (csiTail m).length ≤ m.length := by
        intro m; cases m with
        | nil => simp [csiTail]
        | cons c0 t0 => simp only [csiTail]; split <;> simp
      have h2 : (csiFinish t2).length ≤ t2.length :=
        le_trans (h1 _) (le_trans (List.dropWhile_sublist _).length_le
          (List.dropWhile_sublist _).length_le)
      rw [esc_skip.eq_def]
      simp only [List.length_cons]
      norm_num
      omega
    | case3 c0 t2 hne ih =>
      rw [esc_skip.eq_def]
      simp only [List.length_cons] at ih
      simp [hne]
      omega
    | case4 => simp [esc_skip]
    | case5 c0 rest0 hne =>
      rw [esc_skip.eq_def]
      simp [hne]
  have hk := key s
  rw [h] at hk
  simp only [List.length_cons] at hk
  omega

/-- esc_rawlen (prgi.c lines 130-140): maximal raw byte length, from the start
of s, that contains the first l printable characters of s.  The l parameter is
a C int; when it is negative the loop runs to the end of the string. -/
def esc_rawlen (s : List ℕ) (l : ℤ) : ℕ :=
  let d := s.length - (esc_skip s).length
  match h : esc_skip s with
  | [] => d
  | _ :: t2 => if l = 0 then d else d + 1 + esc_rawlen t2 (l - 1)
termination_by s.length
decreasing_by
  have key : ∀ u : List ℕ, (esc_skip u).length ≤ u.length := by
    intro u
    induction u using esc_skip.induct with
    | case1 => simp [esc_skip]
    | case2 t2 ih =>
      have h1 : ∀ m : List ℕ, (csiTail m).length ≤ m.length := by
        intro m; cases m with
        | nil => simp [csiTail]
        | cons c0 t0 => simp only [csiTail]; split <;> simp
      have h2 : (csiFinish t2).length ≤ t2.length :=
        le_trans (h1 _) (le_trans (List.dropWhile_sublist _).length_le
          (List.dropWhile_sublist _).length_le)
      rw [esc_skip.eq_def]
      simp only [List.length_cons]
      norm_num
      omega
    | case3 c0 t2 hne ih =>
      rw [esc_skip.eq_def]
      simp only [List.length_cons] at ih
      simp [hne]
      omega
    | case4 => simp [esc_skip]
    | case5 c0 rest0 hne =>
      rw [esc_skip.eq_def]
      simp [hne]
  have hk := key s
  rw [h] at hk
  simp only [List.length_cons] at hk
  omega

/-- divmod (prgi.c lines 196-200): returns the pair (new value of n, returned
remainder), i.e. (n / d, n % d).  All uses in prgi.c have n nonnegative and d
positive, where C and Lean integer division agree. -/
def divmod (n d : ℤ) : ℤ × ℤ := (n / d, n % d)

/-- Number of decimal digits of a positive natural, minus one (the exponent of
its leading digit); used to model the exponent chosen by printf %E / %G. -/
def expNat (n : ℕ) : ℕ := (Nat.toDigits 10 n).length - 1

/-- printf %.2E rendering of a rational at least 1 (used by timehms for
durations beyond seven days): mantissa with two digits after the point and a
sign-and-two-digit exponent.  Decimal rounding of the exact rational is
modelled as round half away from zero. -/
def sci2 (x : ℚ) : String :=
  let e0 := expNat (ratTrunc x).toNat
  let m0 := (ratTrunc (x / (10 : ℚ) ^ e0 * 100 + 1/2)).toNat
  let m := if 1000 ≤ m0 then 100 else m0
  let e := if 1000 ≤ m0 then e0 + 1 else e0
  natStr (m / 100) ++ "." ++ padZeros 2 (m % 100) ++ "E+" ++ pad2 (e : ℤ)

/-- printf %.2G rendering of a rational at least 1 (the fallback of sipref for
values beyond the prefix table): two significant digits in %E style with
trailing zeros (and a then-dangling decimal point) removed. -/
def fmtG2 (x : ℚ) : String :=
  let e0 := expNat (ratTrunc x).toNat
  let m0 := (ratTrunc (x / (10 : ℚ) ^ e0 * 10 + 1/2)).toNat
  let m := if 100 ≤ m0 then 10 else m0
  let e := if 100 ≤ m0 then e0 + 1 else e0
  (if m % 10 = 0 then natStr (m / 10)
   else natStr (m / 10) ++ "." ++ natStr (m % 10)) ++ "E+" ++ pad2 (e : ℤ)

/-- printf %.kf rendering of a nonnegative rational: k digits after the
decimal point, decimal rounding modelled as round half away from zero. -/
def fmtF (k : ℕ) (x : ℚ) : String :=
  let s := (ratTrunc (x * (10 : ℚ) ^ k + 1/2)).toNat
  if k = 0 then natStr s
  else natStr (s / 10 ^ k) ++ "." ++ padZeros k (s % 10 ^ k)

/-- timehms (prgi.c lines 621-644): formats a time in seconds as an interval
(31s, 5m42s, 7h36m, ...).  A non-finite float argument is none; the C test
isfinite(t) fails for it and the unknown marker is printed.  Note the days
branch reproduces the format string of line 643, "%dd%d02h", literally: the
hours value is printed unpadded, followed by the literal characters 02h. -/
def timehms (t : Option ℚ) : String :=
  match t with
  | none => "?"
  | some t =>
    if t < 0 then "?"
    else if t > 7 * 24 * 60 * 60 then sci2 t ++ "s"
    else
      let n0 := ratTrunc t
      if n0 < 60 then intStr n0 ++ "s"
      else
        let (n1, r1) := divmod n0 60
        if n1 < 60 then intStr n1 ++ "m" ++ pad2 r1 ++ "s"
        else
          let (n2, r2) := divmod n1 60
          if n2 < 24 then intStr n2 ++ "h" ++ pad2 r2 ++ "m"
          else
            let (n3, r3) := divmod n2 24
            intStr n3 ++ "d" ++ intStr r3 ++ "02h"

/-- dec3 (prgi.c lines 664-666): for 1 <= x <= 999, the number of places after
the decimal point so that 3 significant digits are shown. -/
def dec3 (x : ℚ) : ℕ := if x < 10 then 2 else if x < 100 then 1 else 0

/-- The SI prefix table pw of sipref (prgi.c lines 671-678), without its
terminating NULL sentinel entry: reaching the end of the list plays the role
of reaching the sentinel. -/
def pw : List (ℚ × String) :=
  [(1000, "K"), (10 ^ 6, "M"), (10 ^ 9, "G"), (10 ^ 12, "T"), (10 ^ 15, "P"),
   (10 ^ 18, "E"), (10 ^ 21, "Z"), (10 ^ 24, "Y"), (10 ^ 27, "R"), (10 ^ 30, "Q")]

/-- The scan loop of sipref (prgi.c lines 687-693): while the next table entry
exists, if x is below its threshold, divide x by the current entry value and
emit the current prefix; otherwise advance.  Returns none on fallthrough. -/
def siLoop (x : ℚ) : List (ℚ × String) → Option (ℚ × String)
  | (v, p) :: (v', p') :: rest =>
    if x < v' then some (x / v, p) else siLoop x ((v', p') :: rest)
  | _ => none

/-- sipref (prgi.c lines 670-697): formats a rate with SI prefixes.  A
non-finite float argument is none (the C isfinite test fails, unknown
marker). -/
def sipref (xo : Option ℚ) : String :=
  match xo with
  | none => "?"
  | some x =>
    if x < 0 then "?"
    else if x < 1000 then fmtF (dec3 x) x
    else
      match siLoop x pw with
      | some (m, p) => fmtF (dec3 m) m ++ p
      | none => fmtG2 x

/-- PRGI_MAXLINELEN (prgi.c line 52). -/
def MAXLINELEN : ℤ := 256

/-- PRGI_MAXBARLEN (prgi.c line 57): defaults to PRGI_MAXLINELEN. -/
def MAXBARLEN : ℤ := MAXLINELEN

/-- myround (prgi.c lines 89-91): (int)(x + 0.5), truncation toward zero of
x + 1/2 (the C function returns the value back as a float; every use assigns
it to an int, which is the integer produced here). -/
def myround (x : ℚ) : ℤ := ratTrunc (x + 1/2)

/-- The length-resolution step of bar_doit (prgi.c lines 566-570): a positive
requested length is clamped to the range 10 to MAXBARLEN. -/
def bar_doit_len (len : ℤ) : ℤ :=
  if len < 10 then 10 else if len > MAXBARLEN then MAXBARLEN else len

/-- The filled-cell count of bar_doit (prgi.c lines 574-575): n is
myround(len * progress) for the resolved length, then capped at len. -/
def bar_doit_n (len : ℤ) (progress : ℚ) : ℤ :=
  let rlen := bar_doit_len len
  let n := myround ((rlen : ℚ) * progress)
  if n > rlen then rlen else n

/-- The public struct prgi_t (prgi.h lines 45-58).  The FILE pointer output is
modelled by whether it is set (non-NULL); whether that stream is a usable
terminal is reported through the tw parameter of prgi_update__ (the termwidth
result, -1 for a non-terminal). -/
structure PrgiT where
  output_set : Bool
  update : ℚ
  lock_on_update : Bool
  width : ℤ
  progress : Option ℚ
  elapsed : Option ℚ
  remaining : Option ℚ
  rate : Option ℚ
  mean_rate : Option ℚ
deriving DecidableEq

/-- struct global_state (prgi.c lines 225-248).  The start timespec is
implicit: all times are already relative to it.  printed_lines is a count that
is never negative, modelled as a natural number. -/
structure GlobalState where
  total : ℤ
  count : ℤ
  last_count : ℤ
  last_time : ℚ
  width : ℤ
  printed_lines : ℕ
  expand_count : ℤ
deriving DecidableEq

/-- struct prgi_thread_state_ (prgi.h lines 33-36), the thread-local state of
the worker under consideration. -/
structure ThreadState where
  total : ℤ
  count : ℤ
  last_count : ℤ
  mark : ℤ
  last_time : ℚ
deriving DecidableEq

/-- The whole mutable state seen by one worker: the shared prgi and global
structs, this worker's thread-local state, and the trace of byte chunks
written to the output stream so far. -/
structure PrgiState where
  prgi : PrgiT
  global : GlobalState
  thread : ThreadState
  out : List (List ℕ)
deriving DecidableEq

/-- valid_terminal (prgi.c lines 319-321). -/
def valid_terminal (p : PrgiT) : Bool := p.output_set && p.width ≥ 3

/-- prgi_clear (prgi.c lines 323-343): erase the previously printed lines.
The emitted bytes are carriage-return clear-line for the current line and
cursor-up clear-line for each earlier line. -/
def prgi_clear (s : PrgiState) : PrgiState :=
  if s.global.printed_lines = 0 then s
  else if valid_terminal s.prgi then
    { s with
      out := s.out ++ [[13, 27, 91, 75]] ++
        List.replicate (s.global.printed_lines - 1) [27, 91, 65, 27, 91, 75],
      global.printed_lines := 0 }
  else { s with global.printed_lines := 0 }

/-- The bytes ">>>" followed by the reset sequence ESC [ 0 m, appended by
prgi_puts when it truncates a line (prgi.c line 362). -/
def truncMarker : List ℕ := [62, 62, 62, 27, 91, 48, 109]

/-- The text-plus-marker chunk printed by prgi_puts for one line (prgi.c lines
356-364): the string itself when its printable length fits in w, otherwise its
esc_rawlen prefix for w - 3 printable characters followed by truncMarker. -/
def puts_line (w : ℤ) (str : List ℕ) : List ℕ :=
  if (esc_strlen str : ℤ) ≤ w then str
  else str.take (esc_rawlen str (w - 3)) ++ truncMarker

/-- The cursor-parking sequence of prgi_puts (prgi.c line 367), ESC [ %d G. -/
def parkSeq (w : ℤ) : List ℕ :=
  [27, 91] ++ (intStr w).toList.map Char.toNat ++ [71]

/-- prgi_puts (prgi.c lines 350-370). -/
def prgi_puts (str : List ℕ) (s : PrgiState) : PrgiState :=
  if valid_terminal s.prgi then
    { s with
      out := s.out ++ (if s.global.printed_lines ≠ 0 then [[10]] else []) ++
        [puts_line s.global.width str] ++ [parkSeq s.prgi.width],
      global.printed_lines := s.global.printed_lines + 1 }
  else s

/-- prgi_init_thread (prgi.c lines 378-389): reset this worker's state and add
its total into the shared total. -/
def prgi_init_thread (total : ℤ) (s : PrgiState) : PrgiState :=
  { s with
    thread := { total := total, count := 0, last_count := 0, mark := 0, last_time := 0 },
    global.total := s.global.total + total }

/-- prgi_init (prgi.c lines 392-415): reset the prgi snapshot and the shared
state, then register the calling worker.  Resetting the clock origin is
implicit (times are relative to it). -/
def prgi_init (total : ℤ) (s : PrgiState) : PrgiState :=
  prgi_init_thread total
    { s with
      prgi := { s.prgi with
        output_set := true,
        progress := some 0,
        elapsed := some 0,
        remaining := none,
        rate := none,
        mean_rate := none,
        width := -1 },
      global := { total := 0, count := 0, last_count := 0, last_time := 0,
                  width := -1, printed_lines := 0, expand_count := 0 } }

/-- prgi_update__ (prgi.c lines 454-505).  The parameters now and tw are the
values the C code reads from timef(&global.start) and termwidth(prgi.output).
Returns the C return value paired with the state after the call. -/
def prgi_update__ (now : ℚ) (tw : ℤ) (s : PrgiState) : Bool × PrgiState :=
  let thread_delta := s.thread.count - s.thread.last_count
  let mark1 := ratTrunc ((s.thread.mark : ℚ) +
    s.prgi.update * (thread_delta : ℚ) / (now - s.thread.last_time))
  let mark2 := if s.thread.count < s.thread.total ∧ mark1 > s.thread.total
    then s.thread.total else mark1
  let th : ThreadState := { s.thread with
    mark := mark2, last_count := s.thread.count, last_time := now }
  let gcount := s.global.count + thread_delta
  let global_dt := now - s.global.last_time
  let ready := global_dt > 8/10 * s.prgi.update
  if ready ∨ gcount = thread_delta ∨ s.thread.count = s.thread.total then
    let rate := if ready
      then qdiv (some ((gcount - s.global.last_count : ℤ) : ℚ)) (some global_dt)
      else s.prgi.rate
    let p : PrgiT := { s.prgi with
      progress := qdiv (some (gcount : ℚ)) (some (s.global.total : ℚ)),
      elapsed := some now,
      mean_rate := qdiv (some (gcount : ℚ)) (some now),
      rate := rate,
      remaining := qdiv (some ((s.global.total - gcount : ℤ) : ℚ)) rate,
      width := tw }
    let g : GlobalState := { s.global with
      count := gcount,
      last_count := gcount,
      last_time := now,
      width := if tw ≥ MAXLINELEN + 2 then MAXLINELEN else tw - 2,
      expand_count := 0 }
    (true, prgi_clear { s with prgi := p, global := g, thread := th })
  else
    (false, { s with thread := th, global := { s.global with count := gcount } })

/-- prgi_update (prgi.h lines 115-117): add inc to the worker's counter and,
when the counter has reached the mark, run and return prgi_update__. -/
def prgi_update (inc : ℤ) (now : ℚ) (tw : ℤ) (s : PrgiState) : Bool × PrgiState :=
  let s1 : PrgiState := { s with thread.count := s.thread.count + inc }
  if s1.thread.count ≥ s1.thread.mark then prgi_update__ now tw s1 else (false, s1)

/-- prgi_remaining (prgi.c lines 646-649). -/
def prgi_remaining (s : PrgiState) : String := timehms s.prgi.remaining

/-- prgi_elapsed (prgi.c lines 651-654). -/
def prgi_elapsed (s : PrgiState) : String := timehms s.prgi.elapsed

/-- prgi_rate (prgi.c lines 699-702). -/
def prgi_rate (s : PrgiState) : String := sipref s.prgi.rate

/-- prgi_mean_rate (prgi.c lines 704-707). -/
def prgi_mean_rate (s : PrgiState) : String := sipref s.prgi.mean_rate

/-- The state at program start: the static initializers of prgi (prgi.c lines
218-222, update 0.2 seconds) and of the zero-initialized global and
thread-local structs, with an empty output trace. -/
def state0 : PrgiState :=
  { prgi := { output_set := false, update := 1/5, lock_on_update := false,
              width := 0, progress := some 0, elapsed := some 0,
              remaining := some 0, rate := some 0, mean_rate := some 0 },
    global := { total := 0, count := 0, last_count := 0, last_time := 0,
                width := 0, printed_lines := 0, expand_count := 0 },
    thread := { total := 0, count := 0, last_count := 0, mark := 0, last_time := 0 },
    out := [] }

/-- Run a list of prgi_update calls (each given as increment, clock reading
and terminal width), returning the final state provided every call returned
false, and none as soon as one of them publishes. -/
def noPublishRun : List (ℤ × ℚ × ℤ) → PrgiState → Option PrgiState
  | [], s => some s
  | (inc, now, tw) :: rest, s =>
    match prgi_update inc now tw s with
    | (true, _) => none
    | (false, s') => noPublishRun rest s'

/-- Sample string with an embedded CSI sequence, the bytes of a b c ESC [ 7 m
f g h (the example of the esc_rawlen comment, prgi.c lines 124-129). -/
def demoEsc : List ℕ := [97, 98, 99, 27, 91, 55, 109, 102, 103, 104]

/-- A mid-session state in which the publish gate of prgi_update__ fails at
time 21/20: only 1/20 seconds have passed since the last publish at time 1,
the shared count 5 is not equal to this worker's delta 0, and the worker is
not at its total. -/
def stateQuiet : PrgiState :=
  { prgi := { output_set := true, update := 1/5, lock_on_update := false,
              width := 80, progress := some (1/2), elapsed := some 1,
              remaining := some 1, rate := some 5, mean_rate := some 5 },
    global := { total := 10, count := 5, last_count := 5, last_time := 1,
                width := 78, printed_lines := 1, expand_count := 0 },
    thread := { total := 9, count := 3, last_count := 3, mark := 5, last_time := 1 },
    out := [] }

theorem csiTail_length_le (m : List ℕ) : (csiTail m).length ≤ m.length := by
  cases m with
  | nil => simp [csiTail]
  | cons c t => simp only [csiTail]; split <;> simp

theorem csiFinish_length_le (l : List ℕ) : (csiFinish l).length ≤ l.length :=
  le_trans (csiTail_length_le _) (le_trans (List.dropWhile_sublist _).length_le
    (List.dropWhile_sublist _).length_le)

theorem esc_skip_nil : esc_skip [] = [] := by
  simp [esc_skip]

theorem esc_skip_csi (t : List ℕ) : esc_skip (27 :: 91 :: t) = esc_skip (csiFinish t) := by
  rw [esc_skip.eq_def]
  norm_num

theorem esc_skip_esc_cons (c : ℕ) (t : List ℕ) (h : c ≠ 91) :
    esc_skip (27 :: c :: t) = esc_skip (c :: t) := by
  rw [esc_skip.eq_def]
  simp [h]

theorem esc_skip_esc_nil : esc_skip [27] = [] := by
  rw [esc_skip.eq_def]
  norm_num

theorem esc_skip_cons (c : ℕ) (t : List ℕ) (h : c ≠ 27) :
    esc_skip (c :: t) = c :: t := by
  rw [esc_skip.eq_def]
  simp [h]

theorem esc_skip_length_le (s : List ℕ) : (esc_skip s).length ≤ s.length := by
  induction s using esc_skip.induct with
  | case1 => simp [esc_skip_nil]
  | case2 t ih =>
    rw [esc_skip_csi]
    have := csiFinish_length_le t
    simp only [List.length_cons]
    omega
  | case3 c t hne ih =>
    rw [esc_skip_esc_cons c t hne]
    simp only [List.length_cons] at ih ⊢
    omega
  | case4 => simp [esc_skip_esc_nil]
  | case5 c t hne => rw [esc_skip_cons c t hne]

theorem esc_skip_head_ne (s : List ℕ) (c : ℕ) (t : List ℕ)
    (h : esc_skip s = c :: t) : c ≠ 27 := by
  induction s using esc_skip.induct with
  | case1 => rw [esc_skip_nil] at h; cases h
  | case2 t2 ih => rw [esc_skip_csi] at h; exact ih h
  | case3 c2 t2 hne ih => rw [esc_skip_esc_cons c2 t2 hne] at h; exact ih h
  | case4 => rw [esc_skip_esc_nil] at h; cases h
  | case5 c2 t2 hne =>
    rw [esc_skip_cons c2 t2 hne] at h
    cases h
    exact hne

theorem esc_skip_idem (s : List ℕ) : esc_skip (esc_skip s) = esc_skip s := by
  cases h : esc_skip s with
  | nil => exact esc_skip_nil
  | cons c t => exact esc_skip_cons c t (esc_skip_head_ne s c t h)

theorem esc_strlen_of_skip_nil (s : List ℕ) (h : esc_skip s = []) :
    esc_strlen s = 0 := by
  rw [esc_strlen.eq_def]
  split
  · rfl
  · next c t h2 => rw [h] at h2; cases h2

theorem esc_strlen_of_skip_cons (s : List ℕ) (c : ℕ) (t : List ℕ)
    (h : esc_skip s = c :: t) : esc_strlen s = 1 + esc_strlen t := by
  rw [esc_strlen.eq_def]
  split
  · next h2 => rw [h] at h2; cases h2
  · next c2 t2 h2 =>
    rw [h] at h2
    cases h2
    rfl

theorem esc_strlen_esc_skip (s : List ℕ) : esc_strlen (esc_skip s) = esc_strlen s := by
  cases h : esc_skip s with
  | nil => rw [esc_strlen_of_skip_nil s h, esc_strlen_of_skip_nil [] esc_skip_nil]
  | cons c t =>
    rw [esc_strlen_of_skip_cons s c t h,
      esc_strlen_of_skip_cons (c :: t) c t (esc_skip_cons c t (esc_skip_head_ne s c t h))]

theorem esc_rawlen_of_skip_nil (s : List ℕ) (l : ℤ) (h : esc_skip s = []) :
    esc_rawlen s l = s.length - (esc_skip s).length := by
  rw [esc_rawlen.eq_def]
  split
  · rfl
  · next c t h2 => rw [h] at h2; cases h2

theorem esc_rawlen_of_skip_cons (s : List ℕ) (l : ℤ) (c : ℕ) (t : List ℕ)
    (h : esc_skip s = c :: t) :
    esc_rawlen s l = if l = 0 then s.length - (esc_skip s).length
      else s.length - (esc_skip s).length + 1 + esc_rawlen t (l - 1) := by
  rw [esc_rawlen.eq_def]
  split
  · next h2 => rw [h] at h2; cases h2
  · next c2 t2 h2 =>
    rw [h] at h2
    cases h2
    rfl

theorem dropWhile_take (p : ℕ → Bool) (l : List ℕ) (k : ℕ) :
    List.dropWhile p (l.take k) =
      (l.dropWhile p).take (k - (l.length - (l.dropWhile p).length)) := by
  induction l generalizing k with
  | nil => simp
  | cons a l ih =>
    by_cases hp : p a = true
    · cases k with
      | zero => simp
      | succ k =>
        have hle : (l.dropWhile p).length ≤ l.length := (List.dropWhile_sublist _).length_le
        rw [List.take_succ_cons, List.dropWhile_cons_of_pos hp,
          List.dropWhile_cons_of_pos hp, ih]
        congr 1
        simp only [List.length_cons]
        omega
    · rw [List.dropWhile_cons_of_neg hp]
      cases k with
      | zero => simp
      | succ k =>
        rw [List.take_succ_cons, List.dropWhile_cons_of_neg hp]
        simp

theorem csiTail_take (m : List ℕ) (j : ℕ) :
    csiTail (m.take j) = (csiTail m).take (j - (m.length - (csiTail m).length)) := by
  cases m with
  | nil => simp [csiTail]
  | cons c t =>
    by_cases hf : isFinalByte c = true
    · cases j with
      | zero => simp [csiTail]
      | succ j =>
        rw [List.take_succ_cons]
        simp only [csiTail, hf, if_true, List.length_cons]
        congr 1
        omega
    · cases j with
      | zero => simp [csiTail]
      | succ j =>
        rw [List.take_succ_cons]
        simp only [csiTail, hf, if_false, List.length_cons]
        simp

theorem csiFinish_take (l : List ℕ) (j : ℕ) :
    csiFinish (l.take j) = (csiFinish l).take (j - (l.length - (csiFinish l).length)) := by
  have hA : (l.dropWhile isParamByte).length ≤ l.length :=
    (List.dropWhile_sublist _).length_le
  have hB : ((l.dropWhile isParamByte).dropWhile isInterByte).length ≤
      (l.dropWhile isParamByte).length := (List.dropWhile_sublist _).length_le
  have hC : (csiTail ((l.dropWhile isParamByte).dropWhile isInterByte)).length ≤
      ((l.dropWhile isParamByte).dropWhile isInterByte).length := csiTail_length_le _
  simp only [csiFinish]
  rw [dropWhile_take, dropWhile_take, csiTail_take]
  congr 1
  omega

theorem esc_skip_take (s : List ℕ) :
    ∀ k, esc_skip (s.take k) = (esc_skip s).take (k - (s.length - (esc_skip s).length)) := by
  induction s using esc_skip.induct with
  | case1 => intro k; simp [esc_skip_nil]
  | case2 t ih =>
    intro k
    have h1 : (esc_skip (csiFinish t)).length ≤ (csiFinish t).length := esc_skip_length_le _
    have h2 : (csiFinish t).length ≤ t.length := csiFinish_length_le t
    rw [esc_skip_csi]
    match k with
    | 0 => simp [esc_skip_nil]
    | 1 =>
      have : (1 : ℕ) - ((27 :: 91 :: t).length - (esc_skip (csiFinish t)).length) = 0 := by
        simp only [List.length_cons]; omega
      rw [this]
      simp [esc_skip_esc_nil]
    | (j + 2) =>
      rw [List.take_succ_cons, List.take_succ_cons, esc_skip_csi, csiFinish_take, ih]
      congr 1
      simp only [List.length_cons]
      omega
  | case3 c t hne ih =>
    intro k
    have h1 : (esc_skip (c :: t)).length ≤ (c :: t).length := esc_skip_length_le _
    rw [esc_skip_esc_cons c t hne]
    match k with
    | 0 => simp [esc_skip_nil]
    | 1 =>
      have : (1 : ℕ) - ((27 :: c :: t).length - (esc_skip (c :: t)).length) = 0 := by
        simp only [List.length_cons] at h1 ⊢; omega
      rw [this]
      simp [esc_skip_esc_nil]
    | (j + 2) =>
      rw [List.take_succ_cons, List.take_succ_cons,
        esc_skip_esc_cons c (t.take j) hne, ← List.take_succ_cons, ih]
      congr 1
      simp only [List.length_cons] at h1 ⊢
      omega
  | case4 =>
    intro k
    rw [esc_skip_esc_nil]
    match k with
    | 0 => simp [esc_skip_nil]
    | (j + 1) => simp [esc_skip_esc_nil]
  | case5 c t hne =>
    intro k
    rw [esc_skip_cons c t hne]
    match k with
    | 0 => simp [esc_skip_nil]
    | (j + 1) =>
      rw [List.take_succ_cons, esc_skip_cons c (t.take j) hne]
      simp [List.take_succ_cons]

theorem esc_strlen_cons_ne (c : ℕ) (u : List ℕ) (h : c ≠ 27) :
    esc_strlen (c :: u) = 1 + esc_strlen u :=
  esc_strlen_of_skip_cons (c :: u) c u (esc_skip_cons c u h)

theorem esc_rawlen_spec_aux (N : ℕ) : ∀ (s : List ℕ), s.length ≤ N →
    ∀ (n : ℕ), n ≤ esc_strlen s →
    esc_rawlen s (n : ℤ) ≤ s.length ∧
    esc_strlen (s.take (esc_rawlen s (n : ℤ))) = n ∧
    ∀ k, k ≤ s.length → esc_strlen (s.take k) = n → k ≤ esc_rawlen s (n : ℤ) := by
  induction N with
  | zero =>
    intro s hs n hn
    have hs0 : s = [] := by
      cases s with
      | nil => rfl
      | cons a u => simp at hs
    subst hs0
    have h0 : esc_strlen ([] : List ℕ) = 0 := esc_strlen_of_skip_nil [] esc_skip_nil
    rw [h0] at hn
    interval_cases n
    refine ⟨?_, ?_, ?_⟩
    · rw [esc_rawlen_of_skip_nil [] _ esc_skip_nil]
      simp
    · simpa using h0
    · intro k hk _
      have hk0 : k = 0 := by simpa using hk
      subst hk0
      exact Nat.zero_le _
  | succ N ih =>
    intro s hs n hn
    cases h : esc_skip s with
    | nil =>
      have h0 : esc_strlen s = 0 := esc_strlen_of_skip_nil s h
      rw [h0] at hn
      interval_cases n
      simp only [Nat.cast_zero]
      have hr : esc_rawlen s 0 = s.length := by
        rw [esc_rawlen_of_skip_nil s _ h, h]
        simp
      refine ⟨le_of_eq hr, ?_, ?_⟩
      · rw [hr, List.take_length, h0]
      · intro k hk _
        rw [hr]
        exact hk
    | cons c t =>
      have hc : c ≠ 27 := esc_skip_head_ne s c t h
      have hlen : t.length + 1 ≤ s.length := by
        have := esc_skip_length_le s
        rw [h] at this
        simpa using this
      have F1 : ∀ k, esc_strlen (s.take k) =
          esc_strlen ((c :: t).take (k - (s.length - (t.length + 1)))) := by
        intro k
        rw [← esc_strlen_esc_skip (s.take k), esc_skip_take s k, h]
        simp only [List.length_cons]
      cases n with
      | zero =>
        have hr : esc_rawlen s ((0 : ℕ) : ℤ) = s.length - (t.length + 1) := by
          rw [esc_rawlen_of_skip_cons s _ c t h]
          simp [h]
        refine ⟨?_, ?_, ?_⟩
        · rw [hr]; omega
        · rw [hr, F1]
          simp only [Nat.sub_self, List.take_zero]
          exact esc_strlen_of_skip_nil [] esc_skip_nil
        · intro k hk hke
          rw [hr]
          by_contra hgt
          push_neg at hgt
          rw [F1 k] at hke
          have hpos : k - (s.length - (t.length + 1)) = (k - (s.length - (t.length + 1)) - 1) + 1 := by
            omega
          rw [hpos, List.take_succ_cons, esc_strlen_cons_ne c _ hc] at hke
          omega
      | succ n' =>
        have hsl : esc_strlen s = 1 + esc_strlen t := esc_strlen_of_skip_cons s c t h
        have hnt : n' ≤ esc_strlen t := by
          rw [hsl] at hn
          omega
        have htN : t.length ≤ N := by omega
        obtain ⟨ihA, ihB, ihC⟩ := ih t htN n' hnt
        have hr : esc_rawlen s ((n' + 1 : ℕ) : ℤ) =
            (s.length - (t.length + 1)) + 1 + esc_rawlen t (n' : ℤ) := by
          rw [esc_rawlen_of_skip_cons s _ c t h]
          have hne0 : ((n' + 1 : ℕ) : ℤ) ≠ 0 := by positivity
          rw [if_neg hne0, h]
          simp only [List.length_cons]
          congr 2
          push_cast
          ring
        refine ⟨?_, ?_, ?_⟩
        · rw [hr]; omega
        · rw [hr, F1]
          have harith : (s.length - (t.length + 1)) + 1 + esc_rawlen t (n' : ℤ) -
              (s.length - (t.length + 1)) = esc_rawlen t (n' : ℤ) + 1 := by
            omega
          rw [harith, List.take_succ_cons, esc_strlen_cons_ne c _ hc, ihB]
          omega
        · intro k hk hke
          rw [hr]
          rw [F1 k] at hke
          by_cases hkd : k ≤ s.length - (t.length + 1)
          · exfalso
            have : k - (s.length - (t.length + 1)) = 0 := by omega
            rw [this] at hke
            simp only [List.take_zero] at hke
            rw [esc_strlen_of_skip_nil [] esc_skip_nil] at hke
            omega
          · push_neg at hkd
            have hksplit : k - (s.length - (t.length + 1)) =
                (k - (s.length - (t.length + 1)) - 1) + 1 := by omega
            rw [hksplit, List.take_succ_cons, esc_strlen_cons_ne c _ hc] at hke
            have hj := ihC (k - (s.length - (t.length + 1)) - 1) (by omega) (by omega)
            omega

theorem esc_rawlen_spec (s : List ℕ) (n : ℕ) (hn : n ≤ esc_strlen s) :
    esc_rawlen s (n : ℤ) ≤ s.length ∧
    esc_strlen (s.take (esc_rawlen s (n : ℤ))) = n ∧
    ∀ k, k ≤ s.length → esc_strlen (s.take k) = n → k ≤ esc_rawlen s (n : ℤ) :=
  esc_rawlen_spec_aux s.length s le_rfl n hn

theorem esc_strlen_nil : esc_strlen [] = 0 := esc_strlen_of_skip_nil [] esc_skip_nil

theorem esc_strlen_csi (t : List ℕ) : esc_strlen (27 :: 91 :: t) = esc_strlen (csiFinish t) := by
  rw [← esc_strlen_esc_skip (27 :: 91 :: t), esc_skip_csi, esc_strlen_esc_skip]

theorem esc_strlen_esc2 (c : ℕ) (t : List ℕ) (h : c ≠ 91) :
    esc_strlen (27 :: c :: t) = esc_strlen (c :: t) := by
  rw [← esc_strlen_esc_skip (27 :: c :: t), esc_skip_esc_cons c t h, esc_strlen_esc_skip]

theorem esc_strlen_esc1 : esc_strlen [27] = 0 :=
  esc_strlen_of_skip_nil [27] esc_skip_esc_nil

theorem esc_rawlen_nil (l : ℤ) : esc_rawlen [] l = 0 := by
  rw [esc_rawlen_of_skip_nil [] l esc_skip_nil]
  simp

theorem esc_rawlen_cons_ne (c : ℕ) (t : List ℕ) (l : ℤ) (h : c ≠ 27) :
    esc_rawlen (c :: t) l = if l = 0 then 0 else 1 + esc_rawlen t (l - 1) := by
  rw [esc_rawlen_of_skip_cons (c :: t) l c t (esc_skip_cons c t h)]
  rw [esc_skip_cons c t h]
  simp

theorem esc_rawlen_csi (t : List ℕ) (l : ℤ) :
    esc_rawlen (27 :: 91 :: t) l =
      2 + (t.length - (csiFinish t).length) + esc_rawlen (csiFinish t) l := by
  have hcf : (csiFinish t).length ≤ t.length := csiFinish_length_le t
  have hsk : (esc_skip (csiFinish t)).length ≤ (csiFinish t).length := esc_skip_length_le _
  cases h : esc_skip (csiFinish t) with
  | nil =>
    rw [esc_rawlen_of_skip_nil (27 :: 91 :: t) l (by rw [esc_skip_csi]; exact h),
      esc_rawlen_of_skip_nil (csiFinish t) l h, esc_skip_csi, h]
    rw [h] at hsk
    simp only [List.length_cons, List.length_nil]
    omega
  | cons c2 t2 =>
    rw [h] at hsk
    simp only [List.length_cons] at hsk
    rw [esc_rawlen_of_skip_cons (27 :: 91 :: t) l c2 t2 (by rw [esc_skip_csi]; exact h),
      esc_rawlen_of_skip_cons (csiFinish t) l c2 t2 h, esc_skip_csi, h]
    by_cases hl : l = 0
    · rw [if_pos hl, if_pos hl]
      simp only [List.length_cons]
      omega
    · rw [if_neg hl, if_neg hl]
      simp only [List.length_cons]
      omega

theorem esc_rawlen_esc2 (c : ℕ) (t : List ℕ) (l : ℤ) (h : c ≠ 91) :
    esc_rawlen (27 :: c :: t) l = 1 + esc_rawlen (c :: t) l := by
  have hsk : (esc_skip (c :: t)).length ≤ (c :: t).length := esc_skip_length_le _
  simp only [List.length_cons] at hsk
  cases h2 : esc_skip (c :: t) with
  | nil =>
    rw [esc_rawlen_of_skip_nil (27 :: c :: t) l (by rw [esc_skip_esc_cons c t h]; exact h2),
      esc_rawlen_of_skip_nil (c :: t) l h2, esc_skip_esc_cons c t h, h2]
    simp only [List.length_cons, List.length_nil]
    omega
  | cons c2 t2 =>
    rw [h2] at hsk
    simp only [List.length_cons] at hsk
    rw [esc_rawlen_of_skip_cons (27 :: c :: t) l c2 t2 (by rw [esc_skip_esc_cons c t h]; exact h2),
      esc_rawlen_of_skip_cons (c :: t) l c2 t2 h2, esc_skip_esc_cons c t h, h2]
    by_cases hl : l = 0
    · rw [if_pos hl, if_pos hl]
      simp only [List.length_cons]
      omega
    · rw [if_neg hl, if_neg hl]
      simp only [List.length_cons]
      omega

theorem esc_rawlen_esc1 (l : ℤ) : esc_rawlen [27] l = 1 := by
  rw [esc_rawlen_of_skip_nil [27] l esc_skip_esc_nil, esc_skip_esc_nil]
  simp

theorem esc_strlen_truncMarker : esc_strlen truncMarker = 3 := by
  show esc_strlen [62, 62, 62, 27, 91, 48, 109] = 3
  rw [esc_strlen_cons_ne 62 _ (by norm_num), esc_strlen_cons_ne 62 _ (by norm_num),
    esc_strlen_cons_ne 62 _ (by norm_num), esc_strlen_csi,
    show csiFinish [48, 109] = [] from by decide, esc_strlen_nil]

theorem csiTail_append_cons (y : ℕ) (A : List ℕ) (B : List ℕ) :
    csiTail ((y :: A) ++ B) = csiTail (y :: A) ++ B := by
  cases hf : isFinalByte y <;> simp [csiTail, hf, List.cons_append]

theorem esc_strlen_append_marker :
    ∀ P : List ℕ, esc_strlen (P ++ truncMarker) ≤ esc_strlen P + 3 := by
  suffices h : ∀ N, ∀ P : List ℕ, P.length ≤ N →
      esc_strlen (P ++ truncMarker) ≤ esc_strlen P + 3 by
    intro P; exact h P.length P le_rfl
  intro N
  induction N with
  | zero =>
    intro P hP
    have hP0 : P = [] := by
      cases P with
      | nil => rfl
      | cons a t => simp at hP
    subst hP0
    rw [List.nil_append, esc_strlen_nil, esc_strlen_truncMarker]
  | succ N ih =>
    intro P hP
    cases P with
    | nil => rw [List.nil_append, esc_strlen_nil, esc_strlen_truncMarker]
    | cons c t =>
      by_cases hc : c = 27
      · subst hc
        cases t with
        | nil =>
          rw [esc_strlen_esc1]
          show esc_strlen (27 :: truncMarker) ≤ 0 + 3
          rw [show (27 : ℕ) :: truncMarker = 27 :: 62 :: [62, 62, 27, 91, 48, 109] from rfl,
            esc_strlen_esc2 62 _ (by norm_num),
            show (62 : ℕ) :: [62, 62, 27, 91, 48, 109] = truncMarker from rfl,
            esc_strlen_truncMarker]
        | cons c2 t2 =>
          by_cases hc2 : c2 = 91
          · subst hc2
            simp only [List.cons_append]
            rw [esc_strlen_csi, esc_strlen_csi]
            cases hA1 : t2.dropWhile isParamByte with
            | nil =>
              have hcf : csiFinish (t2 ++ truncMarker) = [27, 91, 48, 109] := by
                unfold csiFinish
                rw [List.dropWhile_append, hA1]
                decide
              rw [hcf]
              have h0 : esc_strlen [27, 91, 48, 109] = 0 := by
                rw [show ([27, 91, 48, 109] : List ℕ) = 27 :: 91 :: [48, 109] from rfl,
                  esc_strlen_csi, show csiFinish [48, 109] = [] from by decide, esc_strlen_nil]
              rw [h0]
              omega
            | cons a1 A1' =>
              cases hA2 : (t2.dropWhile isParamByte).dropWhile isInterByte with
              | nil =>
                have hcf : csiFinish (t2 ++ truncMarker) = truncMarker := by
                  unfold csiFinish
                  rw [List.dropWhile_append, hA1]
                  simp only [List.isEmpty_cons, if_neg (by simp : ¬((false : Bool) = true))]
                  rw [List.dropWhile_append, ← hA1, hA2]
                  decide
                rw [hcf, esc_strlen_truncMarker]
                omega
              | cons y A2' =>
                have hcf : csiFinish (t2 ++ truncMarker) = csiFinish t2 ++ truncMarker := by
                  unfold csiFinish
                  rw [List.dropWhile_append, hA1]
                  simp only [List.isEmpty_cons, if_neg (by simp : ¬((false : Bool) = true))]
                  rw [List.dropWhile_append, ← hA1, hA2]
                  simp only [List.isEmpty_cons, if_neg (by simp : ¬((false : Bool) = true))]
                  exact csiTail_append_cons y A2' truncMarker
                rw [hcf]
                refine ih (csiFinish t2) ?_
                have h1 := csiFinish_length_le t2
                simp only [List.length_cons] at hP
                omega
          · simp only [List.cons_append]
            rw [esc_strlen_esc2 c2 _ hc2, esc_strlen_esc2 c2 t2 hc2]
            have hrec := ih (c2 :: t2) (by simp only [List.length_cons] at hP ⊢; omega)
            simp only [List.cons_append] at hrec
            exact hrec
      · simp only [List.cons_append]
        rw [esc_strlen_cons_ne c _ hc, esc_strlen_cons_ne c t hc]
        have hrec := ih t (by simp only [List.length_cons] at hP; omega)
        omega

theorem prgi_clear_prgi (s : PrgiState) : (prgi_clear s).prgi = s.prgi := by
  unfold prgi_clear
  split_ifs <;> rfl

theorem prgi_clear_thread (s : PrgiState) : (prgi_clear s).thread = s.thread := by
  unfold prgi_clear
  split_ifs <;> rfl

theorem prgi_clear_global_width (s : PrgiState) :
    (prgi_clear s).global.width = s.global.width := by
  unfold prgi_clear
  split_ifs <;> rfl

theorem update__decision (now : ℚ) (tw : ℤ) (s : PrgiState) :
    (prgi_update__ now tw s).1 = true ↔
      (now - s.global.last_time > 8/10 * s.prgi.update ∨
       s.global.count + (s.thread.count - s.thread.last_count) =
         s.thread.count - s.thread.last_count ∨
       s.thread.count = s.thread.total) := by
  simp only [prgi_update__]
  split <;> simp_all

theorem update__false_components (now : ℚ) (tw : ℤ) (s : PrgiState)
    (h : ¬(now - s.global.last_time > 8/10 * s.prgi.update ∨
      s.global.count + (s.thread.count - s.thread.last_count) =
        s.thread.count - s.thread.last_count ∨
      s.thread.count = s.thread.total)) :
    (prgi_update__ now tw s).1 = false ∧
    (prgi_update__ now tw s).2.prgi = s.prgi ∧
    (prgi_update__ now tw s).2.out = s.out ∧
    (prgi_update__ now tw s).2.global.printed_lines = s.global.printed_lines := by
  simp only [prgi_update__]
  rw [if_neg h]
  simp

theorem update__false_prgi (now : ℚ) (tw : ℤ) (s : PrgiState)
    (h : (prgi_update__ now tw s).1 = false) :
    (prgi_update__ now tw s).2.prgi = s.prgi := by
  by_cases hd : (now - s.global.last_time > 8/10 * s.prgi.update ∨
      s.global.count + (s.thread.count - s.thread.last_count) =
        s.thread.count - s.thread.last_count ∨
      s.thread.count = s.thread.total)
  · rw [(update__decision now tw s).mpr hd] at h
    cases h
  · exact (update__false_components now tw s hd).2.1

theorem prgi_update_false_prgi (inc : ℤ) (now : ℚ) (tw : ℤ) (u : PrgiState)
    (h : (prgi_update inc now tw u).1 = false) :
    (prgi_update inc now tw u).2.prgi = u.prgi := by
  simp only [prgi_update] at h ⊢
  split at h
  · next hgate =>
    rw [if_pos hgate]
    exact update__false_prgi now tw _ h
  · next hgate =>
    rw [if_neg hgate]

unseal Rat.add Rat.mul Rat.sub Rat.inv Rat.ofScientific

/-- C1: a call to the slow-path publish step prgi_update__ produces a publish
(returns true) if and only if, at that call, the time since the last published
snapshot exceeds 0.8 times the configured update interval, or the merged
global count equals this worker's delta (the very first global increment
ever), or this worker has reached its own total. -/
theorem prgi_C1_publish_iff (now : ℚ) (tw : ℤ) (s : PrgiState) :
    (prgi_update__ now tw s).1 = true ↔
      (now - s.global.last_time > 8/10 * s.prgi.update ∨
       s.global.count + (s.thread.count - s.thread.last_count) =
         s.thread.count - s.thread.last_count ∨
       s.thread.count = s.thread.total) :=
  update__decision now tw s

/-- C3: after the mark re-estimation step of prgi_update__, when the elapsed
interval since the worker's last synchronization is positive and the worker's
count is still below its total, the worker's mark does not exceed its total
(so a final publish occurs exactly at completion). -/
theorem prgi_C3_mark_clamped (now : ℚ) (tw : ℤ) (s : PrgiState)
    (hdt : 0 < now - s.thread.last_time) (hlt : s.thread.count < s.thread.total) :
    ((prgi_update__ now tw s).2).thread.mark ≤ s.thread.total := by
  simp only [prgi_update__]
  split
  · rw [prgi_clear_thread]
    simp only
    split
    · exact le_rfl
    · next hno =>
      push_neg at hno
      exact le_of_not_lt fun hgt => absurd (hno hlt) (not_le.mpr hgt)
  · simp only
    split
    · exact le_rfl
    · next hno =>
      push_neg at hno
      exact le_of_not_lt fun hgt => absurd (hno hlt) (not_le.mpr hgt)

theorem prgi_C3_witness :
    0 < (1 : ℚ) - (prgi_init 5 state0).thread.last_time ∧
    (prgi_init 5 state0).thread.count < (prgi_init 5 state0).thread.total ∧
    ((prgi_update__ 1 80 (prgi_init 5 state0)).2).thread.mark ≤
      (prgi_init 5 state0).thread.total :=
  ⟨by decide, by decide, prgi_C3_mark_clamped 1 80 (prgi_init 5 state0) (by decide) (by decide)⟩

/-- C5: the bar renderer clamps every positive requested length into the range
10 to PRGI_MAXBARLEN (in particular requested length 5 resolves to 10),
computes the filled-cell count as myround of resolved length times progress,
and caps that count at the resolved length, for every progress value. -/
theorem prgi_C5_bar (len : ℤ) (hpos : 0 < len) (progress : ℚ) :
    10 ≤ bar_doit_len len ∧ bar_doit_len len ≤ MAXBARLEN ∧
    bar_doit_len 5 = 10 ∧
    bar_doit_n len progress = (let n := myround ((bar_doit_len len : ℚ) * progress);
      if n > bar_doit_len len then bar_doit_len len else n) ∧
    bar_doit_n len progress ≤ bar_doit_len len := by
  refine ⟨?_, ?_, by norm_num [bar_doit_len], rfl, ?_⟩
  · unfold bar_doit_len MAXBARLEN MAXLINELEN
    split_ifs <;> omega
  · unfold bar_doit_len MAXBARLEN MAXLINELEN
    split_ifs <;> omega
  · unfold bar_doit_n
    simp only
    split_ifs <;> omega

theorem prgi_C5_witness :
    (0 : ℤ) < 5 ∧
    10 ≤ bar_doit_len 5 ∧ bar_doit_len 5 ≤ MAXBARLEN ∧
    bar_doit_n 5 (11/10) ≤ bar_doit_len 5 :=
  ⟨by norm_num,
   (prgi_C5_bar 5 (by norm_num) (11/10)).1,
   (prgi_C5_bar 5 (by norm_num) (11/10)).2.1,
   (prgi_C5_bar 5 (by norm_num) (11/10)).2.2.2.2⟩

/-- C8: whenever prgi_update__ decides not to publish (none of the three
publish conditions holds), it returns false, every public snapshot field keeps
the value it had before the call, nothing is written to the terminal, and no
line erasure happens (the printed-line count is unchanged). -/
theorem prgi_C8_no_publish_frame (now : ℚ) (tw : ℤ) (s : PrgiState)
    (h : ¬(now - s.global.last_time > 8/10 * s.prgi.update ∨
      s.global.count + (s.thread.count - s.thread.last_count) =
        s.thread.count - s.thread.last_count ∨
      s.thread.count = s.thread.total)) :
    (prgi_update__ now tw s).1 = false ∧
    (prgi_update__ now tw s).2.prgi.progress = s.prgi.progress ∧
    (prgi_update__ now tw s).2.prgi.elapsed = s.prgi.elapsed ∧
    (prgi_update__ now tw s).2.prgi.remaining = s.prgi.remaining ∧
    (prgi_update__ now tw s).2.prgi.rate = s.prgi.rate ∧
    (prgi_update__ now tw s).2.prgi.mean_rate = s.prgi.mean_rate ∧
    (prgi_update__ now tw s).2.prgi.width = s.prgi.width ∧
    (prgi_update__ now tw s).2.out = s.out ∧
    (prgi_update__ now tw s).2.global.printed_lines = s.global.printed_lines := by
  obtain ⟨h1, h2, h3, h4⟩ := update__false_components now tw s h
  exact ⟨h1, by rw [h2], by rw [h2], by rw [h2], by rw [h2], by rw [h2], by rw [h2], h3, h4⟩

theorem prgi_C8_witness :
    ¬((21/20 : ℚ) - stateQuiet.global.last_time > 8/10 * stateQuiet.prgi.update ∨
      stateQuiet.global.count + (stateQuiet.thread.count - stateQuiet.thread.last_count) =
        stateQuiet.thread.count - stateQuiet.thread.last_count ∨
      stateQuiet.thread.count = stateQuiet.thread.total) ∧
    (prgi_update__ (21/20) 80 stateQuiet).1 = false ∧
    (prgi_update__ (21/20) 80 stateQuiet).2.prgi.progress = stateQuiet.prgi.progress ∧
    (prgi_update__ (21/20) 80 stateQuiet).2.out = stateQuiet.out :=
  ⟨by decide,
   (prgi_C8_no_publish_frame (21/20) 80 stateQuiet (by decide)).1,
   (prgi_C8_no_publish_frame (21/20) 80 stateQuiet (by decide)).2.1,
   (prgi_C8_no_publish_frame (21/20) 80 stateQuiet (by decide)).2.2.2.2.2.2.2.1⟩

/-- C2 counterexample: a worker whose prgi_init_thread runs after another
worker has already merged increments makes its very first prgi_update call
(thread count 0 before the call) and gets false: at time 2/100 the previous
publish at 1/100 is too recent, the merged count 2 differs from the delta 1,
and the worker is far from its total 5. -/
theorem prgi_C2_counterexample :
    (prgi_init_thread 5 (prgi_update 1 (1/100) 80 (prgi_init 2 state0)).2).thread.count = 0 ∧
    (prgi_update 1 (2/100) 80 (prgi_init_thread 5
      (prgi_update 1 (1/100) 80 (prgi_init 2 state0)).2)).1 = false :=
  ⟨by decide, by decide⟩

/-- C2 amended: the fast-path record operation returns true regardless of
elapsed time (a) on the very first call after init or init_worker whenever no
global increment has been merged yet, so that this call performs the very
first global increment ever (in particular on the first call after prgi_init
in a single-threaded program), and (b) on the call where the worker's count
reaches its total, its mark not exceeding its total (which the re-estimation
clamp maintains while the count is below the total). -/
theorem prgi_C2_amended :
    (∀ (s : PrgiState) (total inc : ℤ) (now : ℚ) (tw : ℤ), 0 ≤ inc →
      s.global.count = 0 →
      (prgi_update inc now tw (prgi_init_thread total s)).1 = true) ∧
    (∀ (s : PrgiState) (inc : ℤ) (now : ℚ) (tw : ℤ),
      s.thread.count + inc = s.thread.total → s.thread.mark ≤ s.thread.total →
      (prgi_update inc now tw s).1 = true) := by
  constructor
  · intro s total inc now tw hinc hcount
    simp only [prgi_update, prgi_init_thread]
    rw [if_pos (by simp; omega)]
    rw [update__decision]
    right; left
    simp [hcount]
  · intro s inc now tw hreach hmark
    simp only [prgi_update]
    rw [if_pos (by simp; omega)]
    rw [update__decision]
    right; right
    simpa using hreach

theorem prgi_C2_witness :
    (0 : ℤ) ≤ 1 ∧ state0.global.count = 0 ∧
    (prgi_update 1 5 80 (prgi_init_thread 3 state0)).1 = true ∧
    (prgi_init 1 state0).thread.count + 1 = (prgi_init 1 state0).thread.total ∧
    (prgi_update 1 7 80 (prgi_init 1 state0)).1 = true :=
  ⟨by norm_num, rfl,
   prgi_C2_amended.1 state0 3 1 5 80 (by norm_num) rfl,
   by decide,
   prgi_C2_amended.2 (prgi_init 1 state0) 1 7 80 (by decide) (by decide)⟩

/-- C4: for every NUL-free string s and every n not exceeding its printable
length, esc_rawlen s n is the maximal raw byte offset whose prefix contains
exactly n printable characters; in particular recognized CSI sequences that
immediately follow the n-th printable character are included. -/
theorem prgi_C4_rawlen_maximal (s : List ℕ) (n : ℕ) (hnz : 0 ∉ s)
    (hn : n ≤ esc_strlen s) :
    esc_rawlen s (n : ℤ) ≤ s.length ∧
    esc_strlen (s.take (esc_rawlen s (n : ℤ))) = n ∧
    ∀ k, k ≤ s.length → esc_strlen (s.take k) = n → k ≤ esc_rawlen s (n : ℤ) :=
  esc_rawlen_spec s n hn

theorem prgi_C4_witness :
    0 ∉ demoEsc ∧ 3 ≤ esc_strlen demoEsc ∧
    esc_rawlen demoEsc ((3 : ℕ) : ℤ) ≤ demoEsc.length ∧
    esc_strlen (demoEsc.take (esc_rawlen demoEsc ((3 : ℕ) : ℤ))) = 3 := by
  have hs : esc_strlen demoEsc = 6 := by
    norm_num [demoEsc, esc_strlen_cons_ne, esc_strlen_csi,
      show csiFinish [55, 109, 102, 103, 104] = [102, 103, 104] from by decide,
      esc_strlen_nil]
  have h3 : 3 ≤ esc_strlen demoEsc := by omega
  have h0 : 0 ∉ demoEsc := by decide
  exact ⟨h0, h3, (prgi_C4_rawlen_maximal demoEsc 3 h0 h3).1,
    (prgi_C4_rawlen_maximal demoEsc 3 h0 h3).2.1⟩

/-- C6: checkpoints of the time-interval formatter.  Unknown marker for
non-finite and negative input, 61 seconds and 3661 seconds as specified; but
at 90000 seconds (25 hours) the days branch renders 1d102h instead of the
zero-padded 1d01h the claim requires, because the format string of prgi.c
line 643 is the malformed "%dd%d02h" instead of "%dd%02dh". -/
theorem prgi_C6_days_format_bug :
    timehms none = "?" ∧ timehms (some (-5)) = "?" ∧
    timehms (some 61) = "1m01s" ∧ timehms (some 3661) = "1h01m" ∧
    timehms (some 90000) = "1d102h" ∧ "1d102h" ≠ "1d01h" :=
  ⟨rfl, by decide, by decide, by decide, by decide, by decide⟩

/-- C7 counterexample: at 10 to the 30 the rate formatter falls back to
two-significant-digit scientific notation and renders 1E+30, not the 1.00Q
that the claimed Q-prefix scaling would produce: the Q entry of the prefix
table is unreachable because the scan loop stops at the table sentinel. -/
theorem prgi_C7_counterexample :
    sipref (some ((10:ℚ)^30)) = "1E+30" ∧ "1E+30" ≠ "1.00Q" :=
  ⟨by decide, by decide⟩

/-- C7 amended: for a finite nonnegative rate, values under 1000 render with
three significant digits and no prefix; values from 1000 up to 10 to the 30
are scaled by the largest applicable power-of-1000 prefix among K, M, G, T,
P, E, Z, Y, R to three significant digits; values at or above 10 to the 30
(the Q table entry being unreachable) fall back to two-significant-digit
scientific notation. -/
theorem prgi_C7_amended (x : ℚ) (hx : 0 ≤ x) :
    (x < 1000 → sipref (some x) = fmtF (dec3 x) x) ∧
    (1000 ≤ x → x < 10^30 → ∃ i v p, pw.get? i = some (v, p) ∧ i < 9 ∧
      v ≤ x ∧ x < 1000 * v ∧
      sipref (some x) = fmtF (dec3 (x / v)) (x / v) ++ p) ∧
    ((10:ℚ)^30 ≤ x → sipref (some x) = fmtG2 x) := by
  have hx0 : ¬ x < 0 := not_lt.mpr hx
  refine ⟨?_, ?_, ?_⟩
  · intro hlt
    simp only [sipref]
    rw [if_neg hx0, if_pos hlt]
  · intro hge hlt
    by_cases h6 : x < 10^6
    · refine ⟨0, 1000, "K", by simp [pw], by norm_num, hge, by norm_num at h6 ⊢; linarith, ?_⟩
      simp only [sipref]
      rw [if_neg hx0, if_neg (not_lt.mpr hge)]
      simp only [pw, siLoop]
      rw [if_pos h6]
    · by_cases h9 : x < 10^9
      · refine ⟨1, (10:ℚ)^6, "M", by simp [pw], by norm_num, le_of_not_lt h6, by norm_num at h9 ⊢; linarith, ?_⟩
        simp only [sipref]
        rw [if_neg hx0, if_neg (not_lt.mpr hge)]
        simp only [pw, siLoop]
        rw [if_neg h6, if_pos h9]
      · by_cases h12 : x < 10^12
        · refine ⟨2, (10:ℚ)^9, "G", by simp [pw], by norm_num, le_of_not_lt h9, by norm_num at h12 ⊢; linarith, ?_⟩
          simp only [sipref]
          rw [if_neg hx0, if_neg (not_lt.mpr hge)]
          simp only [pw, siLoop]
          rw [if_neg h6, if_neg h9, if_pos h12]
        · by_cases h15 : x < 10^15
          · refine ⟨3, (10:ℚ)^12, "T", by simp [pw], by norm_num, le_of_not_lt h12, by norm_num at h15 ⊢; linarith, ?_⟩
            simp only [sipref]
            rw [if_neg hx0, if_neg (not_lt.mpr hge)]
            simp only [pw, siLoop]
            rw [if_neg h6, if_neg h9, if_neg h12, if_pos h15]
          · by_cases h18 : x < 10^18
            · refine ⟨4, (10:ℚ)^15, "P", by simp [pw], by norm_num, le_of_not_lt h15, by norm_num at h18 ⊢; linarith, ?_⟩
              simp only [sipref]
              rw [if_neg hx0, if_neg (not_lt.mpr hge)]
              simp only [pw, siLoop]
              rw [if_neg h6, if_neg h9, if_neg h12, if_neg h15, if_pos h18]
            · by_cases h21 : x < 10^21
              · refine ⟨5, (10:ℚ)^18, "E", by simp [pw], by norm_num, le_of_not_lt h18, by norm_num at h21 ⊢; linarith, ?_⟩
                simp only [sipref]
                rw [if_neg hx0, if_neg (not_lt.mpr hge)]
                simp only [pw, siLoop]
                rw [if_neg h6, if_neg h9, if_neg h12, if_neg h15, if_neg h18, if_pos h21]
              · by_cases h24 : x < 10^24
                · refine ⟨6, (10:ℚ)^21, "Z", by simp [pw], by norm_num, le_of_not_lt h21, by norm_num at h24 ⊢; linarith, ?_⟩
                  simp only [sipref]
                  rw [if_neg hx0, if_neg (not_lt.mpr hge)]
                  simp only [pw, siLoop]
                  rw [if_neg h6, if_neg h9, if_neg h12, if_neg h15, if_neg h18, if_neg h21, if_pos h24]
                · by_cases h27 : x < 10^27
                  · refine ⟨7, (10:ℚ)^24, "Y", by simp [pw], by norm_num, le_of_not_lt h24, by norm_num at h27 ⊢; linarith, ?_⟩
                    simp only [sipref]
                    rw [if_neg hx0, if_neg (not_lt.mpr hge)]
                    simp only [pw, siLoop]
                    rw [if_neg h6, if_neg h9, if_neg h12, if_neg h15, if_neg h18, if_neg h21, if_neg h24, if_pos h27]
                  · refine ⟨8, (10:ℚ)^27, "R", by simp [pw], by norm_num, le_of_not_lt h27, by norm_num at hlt ⊢; linarith, ?_⟩
                    simp only [sipref]
                    rw [if_neg hx0, if_neg (not_lt.mpr hge)]
                    simp only [pw, siLoop]
                    rw [if_neg h6, if_neg h9, if_neg h12, if_neg h15, if_neg h18, if_neg h21, if_neg h24, if_neg h27, if_pos hlt]
  · intro h30
    simp only [sipref]
    rw [if_neg hx0, if_neg (not_lt.mpr (le_trans (by norm_num : ((1000:ℚ)) ≤ 10^30) h30))]
    simp only [pw, siLoop]
    rw [if_neg (not_lt.mpr (le_trans (by norm_num : ((10:ℚ)^6) ≤ 10^30) h30)),
      if_neg (not_lt.mpr (le_trans (by norm_num : ((10:ℚ)^9) ≤ 10^30) h30)),
      if_neg (not_lt.mpr (le_trans (by norm_num : ((10:ℚ)^12) ≤ 10^30) h30)),
      if_neg (not_lt.mpr (le_trans (by norm_num : ((10:ℚ)^15) ≤ 10^30) h30)),
      if_neg (not_lt.mpr (le_trans (by norm_num : ((10:ℚ)^18) ≤ 10^30) h30)),
      if_neg (not_lt.mpr (le_trans (by norm_num : ((10:ℚ)^21) ≤ 10^30) h30)),
      if_neg (not_lt.mpr (le_trans (by norm_num : ((10:ℚ)^24) ≤ 10^30) h30)),
      if_neg (not_lt.mpr (le_trans (by norm_num : ((10:ℚ)^27) ≤ 10^30) h30)),
      if_neg (not_lt.mpr h30)]

theorem prgi_C7_witness :
    (0:ℚ) ≤ 999 ∧ (999:ℚ) < 1000 ∧ sipref (some 999) = fmtF (dec3 999) 999 ∧
    (0:ℚ) ≤ 10^30 ∧ sipref (some ((10:ℚ)^30)) = fmtG2 ((10:ℚ)^30) :=
  ⟨by norm_num, by norm_num, (prgi_C7_amended 999 (by norm_num)).1 (by norm_num),
   by positivity, (prgi_C7_amended ((10:ℚ)^30) (by positivity)).2.2 (le_refl _)⟩

/-- C9 counterexample: a publish with a reported terminal width of 3 sets the
rendering width to 1; printing the four printable bytes a b c d then emits a
line whose printable length is 7 (the whole string plus the three marker
characters, because the truncation length parameter 1 - 3 is negative and
esc_rawlen runs to the end of the string), which exceeds width minus 2. -/
theorem prgi_C9_counterexample :
    (prgi_update__ 1 3 (prgi_init 2 state0)).1 = true ∧
    (prgi_update__ 1 3 (prgi_init 2 state0)).2.prgi.width = 3 ∧
    (prgi_update__ 1 3 (prgi_init 2 state0)).2.global.width = 3 - 2 ∧
    valid_terminal (prgi_update__ 1 3 (prgi_init 2 state0)).2.prgi = true ∧
    esc_strlen (puts_line ((prgi_update__ 1 3 (prgi_init 2 state0)).2.global.width)
      [97, 98, 99, 100]) = 7 ∧
    ¬ ((7 : ℤ) ≤ 3 - 2) := by
  refine ⟨by decide, by decide, by decide, by decide, ?_, by decide⟩
  rw [show (prgi_update__ 1 3 (prgi_init 2 state0)).2.global.width = 1 from by decide]
  norm_num [puts_line, esc_strlen_cons_ne, esc_strlen_nil, esc_rawlen_cons_ne,
    esc_rawlen_nil, truncMarker, esc_strlen_csi,
    show csiFinish [48, 109] = [] from by decide]

/-- C9 amended: on every publish prgi_update__ sets the snapshot width to the
reported terminal width and the internal rendering width to PRGI_MAXLINELEN
when that terminal width is at least PRGI_MAXLINELEN + 2 and to the terminal
width minus 2 otherwise; consequently, for a terminal width of at least 5 and
narrower than PRGI_MAXLINELEN + 2 columns, the printable length of the line
content printed by prgi_puts (truncation marker included) never exceeds the
terminal width minus 2.  (For widths 3 and 4 the truncation length parameter
is negative, the whole string is printed, and the bound fails.) -/
theorem prgi_C9_amended :
    (∀ (now : ℚ) (tw : ℤ) (s : PrgiState), (prgi_update__ now tw s).1 = true →
      (prgi_update__ now tw s).2.prgi.width = tw ∧
      (prgi_update__ now tw s).2.global.width =
        (if tw ≥ MAXLINELEN + 2 then MAXLINELEN else tw - 2)) ∧
    (∀ (w : ℤ) (str : List ℕ), 5 ≤ w → w < MAXLINELEN + 2 →
      (esc_strlen (puts_line (w - 2) str) : ℤ) ≤ w - 2) := by
  constructor
  · intro now tw s h
    by_cases hd : (now - s.global.last_time > 8/10 * s.prgi.update ∨
      s.global.count + (s.thread.count - s.thread.last_count) =
        s.thread.count - s.thread.last_count ∨
      s.thread.count = s.thread.total)
    · constructor
      · simp only [prgi_update__]
        rw [if_pos hd]
        simp only
        rw [prgi_clear_prgi]
      · simp only [prgi_update__]
        rw [if_pos hd]
        simp only
        rw [prgi_clear_global_width]
    · exact absurd ((update__decision now tw s).mp h) hd
  · intro w str h5 hlt
    unfold puts_line
    split_ifs with hfit
    · exact hfit
    · push_neg at hfit
      have harg : w - 2 - 3 = (((w - 5).toNat : ℕ) : ℤ) := by omega
      rw [harg]
      have hnle : (w - 5).toNat ≤ esc_strlen str := by omega
      obtain ⟨hA, hB, hC⟩ := esc_rawlen_spec str (w - 5).toNat hnle
      have hm := esc_strlen_append_marker (str.take (esc_rawlen str (((w - 5).toNat : ℕ) : ℤ)))
      rw [hB] at hm
      have : (esc_strlen (str.take (esc_rawlen str (((w - 5).toNat : ℕ) : ℤ)) ++ truncMarker) : ℤ)
          ≤ ((w - 5).toNat : ℤ) + 3 := by exact_mod_cast hm
      omega

theorem prgi_C9_witness :
    (prgi_update__ 1 80 (prgi_init 2 state0)).1 = true ∧
    (prgi_update__ 1 80 (prgi_init 2 state0)).2.prgi.width = 80 ∧
    (prgi_update__ 1 80 (prgi_init 2 state0)).2.global.width =
      (if (80:ℤ) ≥ MAXLINELEN + 2 then MAXLINELEN else 80 - 2) ∧
    (esc_strlen (puts_line ((10:ℤ) - 2) [97, 98, 99, 100]) : ℤ) ≤ 10 - 2 :=
  ⟨by decide,
   (prgi_C9_amended.1 1 80 (prgi_init 2 state0) (by decide)).1,
   (prgi_C9_amended.1 1 80 (prgi_init 2 state0) (by decide)).2,
   prgi_C9_amended.2 10 [97, 98, 99, 100] (by norm_num) (by norm_num [MAXLINELEN])⟩

/-- C10: after prgi_init and any run of prgi_update calls none of which
published, the snapshot fields remaining, rate and mean_rate are still the
NaN they were initialized to (modelled none) and width is still -1, so the
formatters prgi_remaining, prgi_rate and prgi_mean_rate all produce the
unknown marker. -/
theorem prgi_C10_before_first_publish (s : PrgiState) (total : ℤ)
    (steps : List (ℤ × ℚ × ℤ)) (s' : PrgiState)
    (h : noPublishRun steps (prgi_init total s) = some s') :
    s'.prgi.remaining = none ∧ s'.prgi.rate = none ∧ s'.prgi.mean_rate = none ∧
    s'.prgi.width = -1 ∧
    prgi_remaining s' = "?" ∧ prgi_rate s' = "?" ∧ prgi_mean_rate s' = "?" := by
  have key : ∀ (steps : List (ℤ × ℚ × ℤ)) (u s2 : PrgiState),
      noPublishRun steps u = some s2 → s2.prgi = u.prgi := by
    intro steps
    induction steps with
    | nil =>
      intro u s2 h2
      simp only [noPublishRun, Option.some.injEq] at h2
      rw [← h2]
    | cons step rest ih =>
      intro u s2 h2
      obtain ⟨inc, now, tw⟩ := step
      simp only [noPublishRun] at h2
      cases hres : prgi_update inc now tw u with
      | mk b u2 =>
        rw [hres] at h2
        cases b with
        | true => simp at h2
        | false =>
          simp only at h2
          have hstep : (prgi_update inc now tw u).2.prgi = u.prgi :=
            prgi_update_false_prgi inc now tw u (by rw [hres])
          rw [hres] at hstep
          rw [ih u2 s2 h2]
          exact hstep
  have hp : s'.prgi = (prgi_init total s).prgi := key steps _ s' h
  have hfields : (prgi_init total s).prgi.remaining = none ∧
      (prgi_init total s).prgi.rate = none ∧
      (prgi_init total s).prgi.mean_rate = none ∧
      (prgi_init total s).prgi.width = -1 := by
    simp [prgi_init, prgi_init_thread]
  obtain ⟨f1, f2, f3, f4⟩ := hfields
  refine ⟨by rw [hp]; exact f1, by rw [hp]; exact f2, by rw [hp]; exact f3,
    by rw [hp]; exact f4, ?_, ?_, ?_⟩
  · simp only [prgi_remaining]
    rw [hp, f1]
    rfl
  · simp only [prgi_rate]
    rw [hp, f2]
    rfl
  · simp only [prgi_mean_rate]
    rw [hp, f3]
    rfl

theorem prgi_C10_witness :
    noPublishRun [] (prgi_init 5 state0) = some (prgi_init 5 state0) ∧
    (prgi_init 5 state0).prgi.remaining = none ∧
    (prgi_init 5 state0).prgi.width = -1 ∧
    prgi_remaining (prgi_init 5 state0) = "?" ∧
    prgi_rate (prgi_init 5 state0) = "?" ∧
    prgi_mean_rate (prgi_init 5 state0) = "?" :=
  ⟨rfl,
   (prgi_C10_before_first_publish state0 5 [] (prgi_init 5 state0) rfl).1,
   (prgi_C10_before_first_publish state0 5 [] (prgi_init 5 state0) rfl).2.2.2.1,
   (prgi_C10_before_first_publish state0 5 [] (prgi_init 5 state0) rfl).2.2.2.2.1,
   (prgi_C10_before_first_publish state0 5 [] (prgi_init 5 state0) rfl).2.2.2.2.2.1,
   (prgi_C10_before_first_publish state0 5 [] (prgi_init 5 state0) rfl).2.2.2.2.2.2⟩
